import Mathlib

/-!
Shallow embedding of the gpwv5 data-preparation scripts
(`src/data_prep/check_input_boundaries.py`, `src/data_prep/eliminate_gaps_overlaps.py`,
`src/data_prep/check_eliminate_output.py`, `src/data_prep/setup_gap_overlap_review.py`)
and proofs about them.

Modelling conventions:
* `sys.exit(k)` and uncaught Python exceptions are modelled by `Except PyExit`.
* Feature-class state handled through `arcpy` cursors is modelled by explicit
  lists of records; a null attribute value is `Option.none`; the float field
  `AREA_SQKM` is modelled by exact rationals (this code only compares areas).
* Python dicts keyed by strings are modelled as functions `String → Option _`;
  Python sets are modelled by lists used only through membership.
* Case mapping models Python `str.lower` / `str.upper` on the basic latin
  range (the data involved - ISO codes and field names - is ASCII).
-/

namespace GPWv5

/-- Termination of a Python script fragment: `exit k` models `sys.exit(k)`,
`exc msg` models an uncaught exception aborting the process. -/
inductive PyExit where
  | exit (code : Nat)
  | exc (msg : String)
deriving DecidableEq, Repr

/-- Python truthiness of a nullable integer attribute (`None` and `0` are falsy). -/
def truthyInt : Option Int → Bool
  | none => false
  | some v => v != 0

/-- `int(x)` applied to a nullable attribute: raises `TypeError` on `None`. -/
def pyInt : Option Int → Except PyExit Int
  | none => .error (.exc "TypeError: int() argument is None")
  | some v => .ok v

/-- The 26 basic-latin upper/lower case pairs. -/
def asciiCasePairs : List (Char × Char) :=
  [('A', 'a'), ('B', 'b'), ('C', 'c'), ('D', 'd'), ('E', 'e'), ('F', 'f'), ('G', 'g'),
   ('H', 'h'), ('I', 'i'), ('J', 'j'), ('K', 'k'), ('L', 'l'), ('M', 'm'), ('N', 'n'),
   ('O', 'o'), ('P', 'p'), ('Q', 'q'), ('R', 'r'), ('S', 's'), ('T', 't'), ('U', 'u'),
   ('V', 'v'), ('W', 'w'), ('X', 'x'), ('Y', 'y'), ('Z', 'z')]

/-- Model of Python `str.lower` on one character (basic latin range). -/
def pyLowerChar (c : Char) : Char :=
  match asciiCasePairs.find? (fun p => p.1 == c) with
  | some p => p.2
  | none => c

/-- Model of Python `str.upper` on one character (basic latin range). -/
def pyUpperChar (c : Char) : Char :=
  match asciiCasePairs.find? (fun p => p.2 == c) with
  | some p => p.1
  | none => c

/-- Model of Python `str.lower`. -/
def pyLower (s : String) : String := ⟨s.data.map pyLowerChar⟩

/-- Model of Python `str.upper`. -/
def pyUpper (s : String) : String := ⟨s.data.map pyUpperChar⟩

/-- `ISOS_TO_CHANGE` (check_input_boundaries.py lines 32-35). -/
def ISOS_TO_CHANGE : List (String × String) := [("and", "adr"), ("vat", "vcs")]

/-- `BAD_ISOS = set(ISOS_TO_CHANGE.keys())` (line 36). -/
def BAD_ISOS : List String := ISOS_TO_CHANGE.map Prod.fst

/-- `check_iso_code` (check_input_boundaries.py lines 76-82). Inside the guard,
`ISOS_TO_CHANGE.get(iso)` always finds the key, so the `getD` default is
unreachable. -/
def check_iso_code (iso : String) : String :=
  let iso := pyLower iso
  if iso ∈ BAD_ISOS then (ISOS_TO_CHANGE.lookup iso).getD iso else iso

/-- Spec-side map for C9: the lower-cased code with `and` replaced by `adr`
and `vat` replaced by `vcs`. -/
def isoSpecMap (w : String) : String :=
  if w = "and" then "adr" else if w = "vat" then "vcs" else w

/-- `check_counts` mismatch set (check_eliminate_output.py lines 8-14):
`set(flds_orig) - set(flds_update)` with `gap` and `overlap` removed; the
Python set is modelled by a list used through membership/nonemptiness only. -/
def check_counts_mismatch (flds_orig flds_update : List String) : List String :=
  ((flds_orig.filter (fun f => !(decide (f ∈ flds_update)))).filter
    (fun f => f != "gap")).filter (fun f => f != "overlap")

/-- `check_counts` emits the missing-fields warning iff `len(mismatch) > 0`
(lines 15-17). -/
def check_counts_warns (flds_orig flds_update : List String) : Bool :=
  decide (0 < (check_counts_mismatch flds_orig flds_update).length)

/-- Result of `_read_reserved_words`: the word set (as a list carrying set
semantics) and the warning messages emitted. -/
structure ReadWordsResult where
  words : List String
  warnings : List String
deriving DecidableEq, Repr

/-- `_read_reserved_words` (check_input_boundaries.py lines 43-55). The file is
`some lines` when readable and `none` when opening/reading raises `IOError`.
On failure the function only warns and returns the empty set - there is no
`sys.exit` on this path. Each readable line is added `.strip()`-ped. -/
def _read_reserved_words : Option (List String) → ReadWordsResult
  | some lines => ⟨lines.map String.trim, []⟩
  | none => ⟨[], ["Unable to read list of reserved keywords, field names cannot be checked!"]⟩

/-- Python dict update `m[k] = v` for a string-keyed dict modelled as a
function (the scripts use the rename dict only through lookup/iteration). -/
def dictSet (m : String → Option String) (k v : String) : String → Option String :=
  fun q => if q = k then some v else m q

/-- `fld[:1].isdigit()` -/
def startsWithDigit (s : String) : Bool :=
  match s.data with
  | [] => false
  | c :: _ => c.isDigit

/-- `fld[:1] == '_'` -/
def startsWithUnderscore (s : String) : Bool :=
  match s.data with
  | [] => false
  | c :: _ => c == '_'

/-- `check_fields` (check_input_boundaries.py lines 84-102): upper-case the
field names, record a rename `FLD -> FLD_` for names in the reserved-word set,
then (possibly overwriting those entries) a rename `FLD -> t_FLD` for names
starting with a digit and `FLD -> tFLD` for names starting with an
underscore. -/
def check_fields (fieldNames : List String) (file : Option (List String)) :
    String → Option String :=
  let reserved_words := (_read_reserved_words file).words
  let flds := fieldNames.map pyUpper
  let m1 := flds.foldl
    (fun m fld => if fld ∈ reserved_words then dictSet m fld (fld ++ "_") else m)
    (fun _ => none)
  flds.foldl
    (fun m fld =>
      if startsWithDigit fld then dictSet m fld ("t_" ++ fld)
      else if startsWithUnderscore fld then dictSet m fld ("t" ++ fld)
      else m)
    m1

/-- The relevant parts of an `arcpy.da.Describe` result. -/
structure FCDescribe where
  spatialRefName : String
  shapeType : String
  geomErrorCount : Nat
  srType : String
  datumCode : Int
  spheroidCode : Int
deriving DecidableEq, Repr

/-- `check_geometry` (check_input_boundaries.py lines 105-145): returns the
triple `(repair_geometry, topology_tests, projection_defined)`; the first two
start as Python `None` and may never be assigned. Note the inner
`shape_type == 'MultiPatch'` test is dead: `MultiPatch` is in the allowed
list, so the else branch sets `topology_tests = True` for it. -/
def check_geometry (d : FCDescribe) : Option Bool × Option Bool × Bool :=
  if d.spatialRefName = "Unknown" then (none, none, false)
  else
    let repair : Option Bool := if 0 < d.geomErrorCount then some true else none
    let topo : Option Bool :=
      if d.shapeType ∉ (["Polygon", "MultiPatch"] : List String) then
        (if d.shapeType = "MultiPatch" then some true else some false)
      else some true
    (repair, topo, true)

/-- `check_srs` (check_input_boundaries.py lines 303-318). -/
def check_srs (d : FCDescribe) : Bool × Bool :=
  let isGeo : Bool := d.srType == "Geographic"
  let wgs84 : Bool :=
    if d.datumCode = 6326 then true else if d.spheroidCode = 7030 then true else false
  (isGeo, wgs84)

/-- Python truthiness of a `None`-able boolean. -/
def truthyOptBool : Option Bool → Bool
  | none => false
  | some b => b

/-- The main flow of check_input_boundaries.py (lines 342-386) from the input
check up to the `make_copy` call, with `sys.exit(k)` as `.error (.exit k)`.
`fcExists` models `arcpy.Exists(fc)`; steps with no control-flow effect
(logging, output-folder and gdb creation, iso handling, the choice of output
spatial reference from `check_srs`) are kept only where control flow needs
them. `.ok` carries the `check_fields` rename dict and means the script
reached `make_copy` (line 382). -/
def boundariesMain (fcExists : Bool) (fieldNames : List String)
    (file : Option (List String)) (d : FCDescribe) :
    Except PyExit (String → Option String) :=
  if !fcExists then .error (.exit 1)
  else
    let updated_names := check_fields fieldNames file
    match check_geometry d with
    | (_repair, topo, has_proj) =>
      if !has_proj then .error (.exit 1)
      else
        let _sr := check_srs d
        if !(truthyOptBool topo) then .error (.exit 1)
        else .ok updated_names

/-- A record of the unioned feature class: OBJECTID, the `union_uid` attribute
(null exactly for the gap polygons produced by the Union), `AREA_SQKM` after
`CalculateGeometryAttributes` (floats modelled by exact rationals; the script
only compares areas), and the nullable `overlaps` / `gaps` flag fields
(`none` models both a null value and a not-yet-added field). -/
structure URec where
  oid : Int
  uid : Option Int
  area : ℚ
  overlapsF : Option Int := none
  gapsF : Option Int := none
deriving DecidableEq, Repr

/-- The gap counter of the counting loop (check_input_boundaries.py lines
203-209): rows whose `union_uid` is falsy. -/
def countGaps (rs : List URec) : Nat := rs.countP (fun r => !truthyInt r.uid)

/-- The number of rows whose `union_uid` is null. -/
def countNulls (rs : List URec) : Nat := rs.countP (fun r => r.uid == none)

/-- The `uids` list of the counting loop (lines 203-209): `int(row[0])` of
every row with a truthy `union_uid`, in cursor order. -/
def collectUids : List URec → List Int
  | [] => []
  | r :: rest =>
    match r.uid with
    | some v => if v != 0 then v :: collectUids rest else collectUids rest
    | none => collectUids rest

/-- Multiplicity of a unique ID among the union fragments. -/
def uidCount (rs : List URec) (v : Int) : Nat := (collectUids rs).count v

/-- The set `dupes` (lines 227-228): ids occurring more than once in `uids`.
The visited-set comprehension is modelled by its extension (the set is used
only through membership and as the key set of `overlap_sizes`). -/
def dupeKeys (uids : List Int) : List Int :=
  (uids.filter (fun v => decide (2 ≤ uids.count v))).dedup

/-- The overlap-size scan (lines 233-246). `acc` is the `overlap_sizes` dict,
modelled as a total function defaulting to the initial `[0, 0]` cell (the dict
is read and written only at keys in `dupes`, where it is initialized). The
row guard is `if row[0]:` - on OBJECTID, not on `union_uid` - so `int(row[1])`
is reached (and raises on null) for gap rows. -/
def overlapScan (uids : List Int) (acc : Int → ℚ × Int) :
    List URec → Except PyExit (Int → ℚ × Int)
  | [] => .ok acc
  | r :: rest =>
    if r.oid != 0 then
      match pyInt r.uid with
      | .error e => .error e
      | .ok id =>
        overlapScan uids
          (if 2 ≤ uids.count id then
            (if r.area > (acc id).1 then
              (fun y => if y = id then (r.area, r.oid) else acc y)
            else acc)
          else acc) rest
    else overlapScan uids acc rest

/-- Exception-free version of `overlapScan`, agreeing with it on inputs
without null uids. -/
def overlapScanP (uids : List Int) (acc : Int → ℚ × Int) : List URec → (Int → ℚ × Int)
  | [] => acc
  | r :: rest =>
    overlapScanP uids
      (match r.uid with
      | none => acc
      | some id =>
        if r.oid != 0 then
          (if 2 ≤ uids.count id then
            (if r.area > (acc id).1 then
              (fun y => if y = id then (r.area, r.oid) else acc y)
            else acc)
          else acc)
        else acc) rest

/-- `main_overlap_polys` (line 249): the winning OBJECTID of each duplicated
id, as recorded in `overlap_sizes`. -/
def mainPolys (uids : List Int) (sizes : Int → ℚ × Int) : List Int :=
  (dupeKeys uids).map (fun id => (sizes id).2)

/-- The overlap-flag update cursor (lines 256-268): flags 2 for the central
poly (winning OBJECTID), 1 for the other fragments of a duplicated id, 0
otherwise; `int(row[1])` raises on a null `union_uid`. -/
def flagOverlaps (uids main : List Int) : List URec → Except PyExit (List URec)
  | [] => .ok []
  | r :: rest =>
    match pyInt r.uid with
    | .error e => .error e
    | .ok id =>
      match flagOverlaps uids main rest with
      | .error e => .error e
      | .ok rest' =>
        .ok ((if 2 ≤ uids.count id then
              (if r.oid ∈ main then { r with overlapsF := some 2 }
               else { r with overlapsF := some 1 })
             else { r with overlapsF := some 0 }) :: rest')

/-- Exception-free version of `flagOverlaps`, agreeing with it on inputs
without null uids. -/
def flagOverlapsP (uids main : List Int) (rs : List URec) : List URec :=
  rs.map (fun r =>
    match r.uid with
    | none => r
    | some id =>
      if 2 ≤ uids.count id then
        (if r.oid ∈ main then { r with overlapsF := some 2 }
         else { r with overlapsF := some 1 })
      else { r with overlapsF := some 0 })

/-- The gap-flag update cursor (lines 274-280): 1 for rows with falsy
`union_uid`, 0 otherwise. -/
def flagGaps (rs : List URec) : List URec :=
  rs.map (fun r =>
    if !truthyInt r.uid then { r with gapsF := some 1 } else { r with gapsF := some 0 })

/-- The overlap block of `overlap_gap_analysis` (lines 223-268): when
`overlaps > 0`, run the size scan and then the overlap-flag update; any
exception aborts. -/
def overlapPass (n : Nat) (rs : List URec) : Except PyExit (List URec) :=
  if 0 < ((collectUids rs).length : Int) - (n : Int) then
    match overlapScan (collectUids rs) (fun _ => (0, 0)) rs with
    | .error e => .error e
    | .ok sizes => flagOverlaps (collectUids rs) (mainPolys (collectUids rs) sizes) rs
  else .ok rs

/-- `overlap_gap_analysis` (check_input_boundaries.py lines 180-282) from the
Union result on: `n` is the pre-union feature count (`union_uid` was populated
with 1..n before the Union), `rs` the union output records with `AREA_SQKM`
already recalculated. When the union has no more features than the input the
function returns `(fc_union, 0, 0)` early (lines 197-201). Otherwise it runs
the overlap block and then, when `gaps > 0`, the gap-flag update, and returns
the updated records, the reported gap count and the (possibly negative)
Python overlap count `len(uids) - original_count`. -/
def overlap_gap_analysis (n : Nat) (rs : List URec) :
    Except PyExit (List URec × Nat × Int) :=
  if rs.length ≤ n then .ok (rs, 0, 0)
  else
    match overlapPass n rs with
    | .error e => .error e
    | .ok rs1 =>
      .ok (if 0 < countGaps rs then flagGaps rs1 else rs1, countGaps rs,
        ((collectUids rs).length : Int) - (n : Int))

/-- Postcondition of `arcpy.analysis.Union` of the boundary layer with itself
after `union_uid` was populated with 1..n (lines 183-194): every fragment's
non-null uid is one of 1..n, and every input feature contributes at least one
fragment carrying its uid. Stated in decidable form. -/
def unionInvariant (n : Nat) (rs : List URec) : Prop :=
  (∀ r ∈ rs, ∀ v ∈ r.uid.toList, 1 ≤ v ∧ v ≤ (n : Int)) ∧
  ∀ j ∈ List.range n, ∃ r ∈ rs, r.uid = some ((j : Int) + 1)

/-- `r` is the strictly largest fragment among the fragments sharing its uid. -/
def isLargestOfUid (rs : List URec) (r : URec) : Prop :=
  ∀ s ∈ rs, s.uid = r.uid → s.oid ≠ r.oid → s.area < r.area

instance isLargestOfUid_decidable (rs : List URec) (r : URec) :
    Decidable (isLargestOfUid rs r) :=
  inferInstanceAs (Decidable (∀ s ∈ rs, s.uid = r.uid → s.oid ≠ r.oid → s.area < r.area))

/-- SQL predicate `fld = 1` on a nullable integer field (null compares
unknown, hence not selected). -/
def sqlEq1 (v : Option Int) : Bool := v == some 1

/-- `check_fc` (eliminate_gaps_overlaps.py lines 7-23). The `AREA_SQKM` check
on lines 12-13 only logs an error message and does not exit. -/
def check_fc (flds : List String) : Except PyExit (Bool × Bool) :=
  let gaps : Bool := decide ("gaps" ∈ flds)
  let overlaps : Bool := decide ("overlaps" ∈ flds)
  if !(gaps || overlaps) then .error (.exit 1) else .ok (gaps, overlaps)

/-- Main flow of eliminate_gaps_overlaps.py (lines 52-64) together with
`run_eliminate` (lines 26-40): `.ok` carries the records selected by
`SelectLayerByAttribute` under the constructed where clause, i.e. exactly the
records the `Eliminate` tool is invoked on. The final branch is unreachable
(Python would raise `NameError`, `query` being unbound, but `check_fc` has
already exited when neither flag field exists). -/
def eliminate_main (flds : List String) (maxArea : ℚ) (recs : List URec) :
    Except PyExit (List URec) :=
  match check_fc flds with
  | .error e => .error e
  | .ok (g, o) =>
    if g && o then
      .ok (recs.filter (fun r =>
        (sqlEq1 r.gapsF || sqlEq1 r.overlapsF) && decide (r.area < maxArea)))
    else if g then
      .ok (recs.filter (fun r => sqlEq1 r.gapsF && decide (r.area < maxArea)))
    else if o then
      .ok (recs.filter (fun r => sqlEq1 r.overlapsF && decide (r.area < maxArea)))
    else .error (.exc "NameError: name 'query' is not defined")

/-- Spec-side selection predicate of C6: some existing flag field equals 1 and
the area is strictly below the threshold. -/
def elimSpecSelect (flds : List String) (maxArea : ℚ) (r : URec) : Bool :=
  ((decide ("gaps" ∈ flds) && sqlEq1 r.gapsF) ||
    (decide ("overlaps" ∈ flds) && sqlEq1 r.overlapsF)) && decide (r.area < maxArea)

/-- A layer of the review project: name and data-source connection
(database and dataset of the connection properties). -/
structure MapLayer where
  name : String
  dataset : String
  database : String
deriving DecidableEq, Repr

/-- `layers_to_update` (setup_gap_overlap_review.py line 9). -/
def layers_to_update : List String := ["overlaps", "gaps", "admin_union"]

/-- Helper for `str.rfind`: scans the characters, keeping the index of the
last occurrence (`-1` when absent). -/
def pyRFindCharAux (c : Char) : List Char → Nat → Int → Int
  | [], _, best => best
  | a :: t, i, best => pyRFindCharAux c t (i + 1) (if a = c then (i : Int) else best)

/-- Python `s.rfind(c)` for a single character. -/
def pyRFindChar (s : String) (c : Char) : Int := pyRFindCharAux c s.data 0 (-1)

/-- Python `s[:i]` for an `i` produced by `rfind` (so `i ≥ -1`; `s[:-1]` drops
the final character). -/
def sliceUpTo (s : String) (i : Int) : String :=
  if i < 0 then ⟨s.data.take (s.data.length - 1)⟩ else ⟨s.data.take i.toNat⟩

/-- Python `s[i+1:]` for an `i` produced by `rfind` (`s[0:]` is `s`). -/
def sliceAfter (s : String) (i : Int) : String :=
  if i < 0 then s else ⟨s.data.drop (i.toNat + 1)⟩

/-- Python `needle in hay` on strings (contiguous substring test). -/
def strContains (hay needle : String) : Bool := decide (needle.data <:+: hay.data)

/-- `setup_project` (setup_gap_overlap_review.py lines 12-61): split the input
path at the last backslash, require a `.gdb` in the path part, import the
template, then rebind the data source of the `overlaps` / `gaps` /
`admin_union` layers to the input feature class; for `original_loaded`,
when `<iso>_ingest` exists (`origExists`) the call on line 54 passes
`replace_dict` - NOT the freshly built `update_dict` - so that layer is also
rebound to the input dataset; otherwise the layer is removed. `.ok` carries
the layer list of the saved project. The `isinstance(..., int)` test on line
17 is always false for the sliced strings and is dropped. -/
def setup_project (fc : String) (layers : List MapLayer) (origExists : Bool) :
    Except PyExit (List MapLayer) :=
  let i := pyRFindChar fc '\\'
  let to_path := sliceUpTo fc i
  let to_fc := sliceAfter fc i
  if !(strContains to_path ".gdb") then .error (.exit 1)
  else
    let iso := ⟨to_fc.data.take 3⟩
    let _orig_fc : String := iso ++ "_ingest"
    .ok (layers.filterMap (fun lyr =>
      if lyr.name ∈ layers_to_update then
        some { lyr with dataset := to_fc, database := to_path }
      else if lyr.name = "original_loaded" then
        (if origExists then
          some { lyr with dataset := to_fc, database := to_path }
        else none)
      else some lyr))

theorem asciiCasePairs_snd_not_key :
    ∀ p ∈ asciiCasePairs, asciiCasePairs.find? (fun q => q.1 == p.2) = none := by
  decide

theorem pyLowerChar_no_upper (c : Char) :
    asciiCasePairs.find? (fun p => p.1 == pyLowerChar c) = none := by
  unfold pyLowerChar
  cases h : asciiCasePairs.find? (fun p => p.1 == c) with
  | none => exact h
  | some p => exact asciiCasePairs_snd_not_key p (List.mem_of_find?_eq_some h)

theorem pyLowerChar_eq_self_of_none (c : Char)
    (h : asciiCasePairs.find? (fun p => p.1 == c) = none) : pyLowerChar c = c := by
  unfold pyLowerChar
  rw [h]

theorem pyLowerChar_idem (c : Char) : pyLowerChar (pyLowerChar c) = pyLowerChar c :=
  pyLowerChar_eq_self_of_none _ (pyLowerChar_no_upper c)

theorem map_pyLowerChar_idem (l : List Char) :
    (l.map pyLowerChar).map pyLowerChar = l.map pyLowerChar := by
  induction l with
  | nil => rfl
  | cons c t ih => simp [List.map, ih, pyLowerChar_idem]

theorem pyLower_idem (s : String) : pyLower (pyLower s) = pyLower s := by
  unfold pyLower
  exact congrArg String.mk (map_pyLowerChar_idem s.data)

/-- C9: `check_iso_code` returns the lower-cased code with `and` mapped to
`adr` and `vat` mapped to `vcs`; its result is never in the unsupported set
`BAD_ISOS = {and, vat}`; and it is idempotent. -/
theorem check_iso_code_spec (s : String) :
    check_iso_code s = isoSpecMap (pyLower s) ∧
    check_iso_code s ∉ BAD_ISOS ∧
    check_iso_code (check_iso_code s) = check_iso_code s := by
  have hbad : BAD_ISOS = ["and", "vat"] := rfl
  by_cases h : pyLower s ∈ BAD_ISOS
  · rw [hbad] at h
    rcases List.mem_cons.mp h with h1 | h1
    · have hv : check_iso_code s = "adr" := by
        unfold check_iso_code
        rw [h1]
        rfl
      refine ⟨?_, ?_, ?_⟩
      · rw [hv, isoSpecMap, h1]
        rfl
      · rw [hv]; decide
      · rw [hv]; decide
    · have h1 : pyLower s = "vat" := by simpa using h1
      have hv : check_iso_code s = "vcs" := by
        unfold check_iso_code
        rw [h1]
        rfl
      refine ⟨?_, ?_, ?_⟩
      · rw [hv, isoSpecMap, h1]
        rfl
      · rw [hv]; decide
      · rw [hv]; decide
  · have hv : check_iso_code s = pyLower s := by
      unfold check_iso_code
      simp [h]
    have hand : pyLower s ≠ "and" := by
      intro hc; exact h (by rw [hbad, hc]; decide)
    have hvat : pyLower s ≠ "vat" := by
      intro hc; exact h (by rw [hbad, hc]; decide)
    refine ⟨?_, ?_, ?_⟩
    · rw [hv, isoSpecMap, if_neg hand, if_neg hvat]
    · rw [hv]; exact h
    · rw [hv]
      unfold check_iso_code
      rw [pyLower_idem]
      simp [h]

/-- C10: the warning fires iff some field of the original feature class other
than `gap` and `overlap` is absent from the updated one; a field present only
in the updated feature class never triggers it. -/
theorem check_counts_warns_iff (flds_orig flds_update : List String) :
    (check_counts_warns flds_orig flds_update = true ↔
      ∃ f, f ∈ flds_orig ∧ f ∉ flds_update ∧ f ≠ "gap" ∧ f ≠ "overlap") ∧
    ∀ g, g ∉ flds_orig →
      check_counts_warns flds_orig (g :: flds_update) =
        check_counts_warns flds_orig flds_update := by
  constructor
  · simp only [check_counts_warns, check_counts_mismatch, decide_eq_true_eq,
      List.length_pos_iff_exists_mem, List.mem_filter, bne_iff_ne, ne_eq,
      Bool.not_eq_true', decide_eq_false_iff_not]
    constructor
    · rintro ⟨f, ⟨⟨hf1, hf2⟩, hf3⟩, hf4⟩
      exact ⟨f, hf1, hf2, hf3, hf4⟩
    · rintro ⟨f, hf1, hf2, hf3, hf4⟩
      exact ⟨f, ⟨⟨hf1, hf2⟩, hf3⟩, hf4⟩
  · intro g hg
    unfold check_counts_warns check_counts_mismatch
    have : flds_orig.filter (fun f => !(decide (f ∈ g :: flds_update))) =
        flds_orig.filter (fun f => !(decide (f ∈ flds_update))) := by
      apply List.filter_congr
      intro f hf
      have hfg : f ≠ g := fun hc => hg (hc ▸ hf)
      simp [List.mem_cons, hfg]
    rw [this]

/-- Witness for C10 at a concrete input: a field present only in the updated
feature class does not change the warning decision. -/
theorem check_counts_warns_iff_witness :
    check_counts_warns ["POP"] ("EXTRA" :: ["POP"]) = check_counts_warns ["POP"] ["POP"] :=
  (check_counts_warns_iff ["POP"] ["POP"]).2 "EXTRA" (by decide)

/-- Lookup characterization of a dict built by a fold whose written value is a
function of the key alone: the result at `k` is that value when some element
of `L` equal to `k` triggers a write, and the initial dict's value otherwise. -/
theorem dictFold_apply (keyVal : String → Option String)
    (step : (String → Option String) → String → (String → Option String))
    (hstep : ∀ m fld, step m fld =
      match keyVal fld with
      | some v => dictSet m fld v
      | none => m) :
    ∀ (L : List String) (m : String → Option String) (k : String),
      (L.foldl step m) k = if k ∈ L ∧ (keyVal k).isSome then keyVal k else m k := by
  intro L
  induction L with
  | nil => intro m k; simp
  | cons a t ih =>
    intro m k
    simp only [List.foldl_cons]
    rw [ih]
    by_cases h1 : k ∈ t ∧ (keyVal k).isSome
    · rw [if_pos h1, if_pos ⟨List.mem_cons_of_mem a h1.1, h1.2⟩]
    · rw [if_neg h1, hstep]
      cases hv : keyVal a with
      | none =>
        have hcond : ¬(k ∈ a :: t ∧ (keyVal k).isSome) := by
          rintro ⟨hm, hs⟩
          rcases List.mem_cons.mp hm with rfl | hm2
          · rw [hv] at hs; exact Bool.noConfusion hs
          · exact h1 ⟨hm2, hs⟩
        rw [if_neg hcond]
      | some v =>
        by_cases hk : k = a
        · subst hk
          show (dictSet m k v) k = _
          unfold dictSet
          rw [if_pos rfl, if_pos ⟨List.mem_cons_self k t, by rw [hv]; rfl⟩, hv]
        · show (dictSet m a v) k = _
          unfold dictSet
          rw [if_neg hk]
          have hcond : ¬(k ∈ a :: t ∧ (keyVal k).isSome) := by
            rintro ⟨hm, hs⟩
            rcases List.mem_cons.mp hm with rfl | hm2
            · exact hk rfl
            · exact h1 ⟨hm2, hs⟩
          rw [if_neg hcond]

/-- C7 (amended): the rename dict maps an upper-cased field name starting with
a digit to `t_` + name, one starting with an underscore to `t` + name, one
found in the reserved-word list (stripped lines of the file) and starting
with neither to name + `_`, and contains nothing else. (The digit/underscore
renames overwrite the reserved-word rename for the same key.) -/
theorem check_fields_spec (fieldNames : List String) (file : Option (List String))
    (k : String) :
    check_fields fieldNames file k =
      (if k ∈ fieldNames.map pyUpper ∧ startsWithDigit k then some ("t_" ++ k)
       else if k ∈ fieldNames.map pyUpper ∧ startsWithUnderscore k then some ("t" ++ k)
       else if k ∈ fieldNames.map pyUpper ∧ k ∈ (_read_reserved_words file).words then
         some (k ++ "_")
       else none) := by
  unfold check_fields
  have h1 := dictFold_apply
    (fun fld => if fld ∈ (_read_reserved_words file).words then some (fld ++ "_") else none)
    (fun m fld =>
      if fld ∈ (_read_reserved_words file).words then dictSet m fld (fld ++ "_") else m)
    (by
      intro m fld
      by_cases h : fld ∈ (_read_reserved_words file).words <;> simp [h])
  have h2 := dictFold_apply
    (fun fld =>
      if startsWithDigit fld then some ("t_" ++ fld)
      else if startsWithUnderscore fld then some ("t" ++ fld) else none)
    (fun m fld =>
      if startsWithDigit fld then dictSet m fld ("t_" ++ fld)
      else if startsWithUnderscore fld then dictSet m fld ("t" ++ fld) else m)
    (by
      intro m fld
      by_cases hd : startsWithDigit fld
      · simp [hd]
      · by_cases hu : startsWithUnderscore fld <;> simp [hd, hu])
  rw [h2, h1]
  by_cases hm : k ∈ fieldNames.map pyUpper
  · by_cases hd : startsWithDigit k
    · simp [hm, hd]
    · by_cases hu : startsWithUnderscore k
      · simp [hm, hd, hu]
      · by_cases hw : k ∈ (_read_reserved_words file).words <;> simp [hm, hd, hu, hw]
  · simp [hm]

/-- C7 counterexample: a field that both starts with a digit and is in the
reserved-word list ends up with only the `t_` rename; the reserved-word entry
claimed by C7 is absent (the dict key is overwritten). -/
theorem check_fields_digit_overwrites_reserved :
    check_fields ["1x"] (some ["1X"]) "1X" = some ("t_" ++ "1X") ∧
    check_fields ["1x"] (some ["1X"]) "1X" ≠ some ("1X" ++ "_") := by
  constructor
  · rfl
  · decide

/-- C4 counterexample: a run on a well-formed polygon input whose
reserved-words file is unreadable does not halt with exit code 1 - the script
reaches `make_copy`. -/
theorem boundariesMain_unreadable_words_no_exit :
    boundariesMain true ["POP"] none ⟨"WGS 1984", "Polygon", 0, "Geographic", 6326, 7030⟩
      ≠ .error (.exit 1) := by
  have hred : boundariesMain true ["POP"] none
      ⟨"WGS 1984", "Polygon", 0, "Geographic", 6326, 7030⟩
      = .ok (check_fields ["POP"] none) := rfl
  rw [hred]
  exact fun h => Except.noConfusion h

/-- C4 (amended): when the reserved-words file cannot be read the script warns
that field names cannot be checked and continues with an empty reserved-word
set - the run behaves exactly as with an empty readable file, with no exit. -/
theorem boundariesMain_unreadable_words_continues (fcExists : Bool)
    (fieldNames : List String) (d : FCDescribe) :
    boundariesMain fcExists fieldNames none d =
      boundariesMain fcExists fieldNames (some []) d ∧
    (_read_reserved_words none).warnings =
      ["Unable to read list of reserved keywords, field names cannot be checked!"] := by
  constructor
  · have hcf : check_fields fieldNames none = check_fields fieldNames (some []) := rfl
    unfold boundariesMain
    rw [hcf]
  · rfl

/-- C5 counterexample: a MultiPatch input is not Polygon geometry, yet the
script does not halt - it reaches `make_copy`. -/
theorem boundariesMain_multipatch_no_exit :
    boundariesMain true [] (some []) ⟨"WGS 1984", "MultiPatch", 0, "Geographic", 6326, 7030⟩
      ≠ .error (.exit 1) ∧
    ("MultiPatch" : String) ≠ "Polygon" := by
  constructor
  · have hred : boundariesMain true [] (some [])
        ⟨"WGS 1984", "MultiPatch", 0, "Geographic", 6326, 7030⟩
        = .ok (check_fields [] (some [])) := rfl
    rw [hred]
    exact fun h => Except.noConfusion h
  · decide

/-- C5 (amended): for every input whose geometry type is neither Polygon nor
MultiPatch, the script halts with exit code 1 before `make_copy` is reached
(whatever the other inputs are: a missing feature class or projection also
exits 1 before the copy). -/
theorem boundariesMain_nonpolygon_exits (fcExists : Bool) (fieldNames : List String)
    (file : Option (List String)) (d : FCDescribe)
    (h : d.shapeType ∉ (["Polygon", "MultiPatch"] : List String)) :
    boundariesMain fcExists fieldNames file d = .error (.exit 1) := by
  unfold boundariesMain
  cases fcExists with
  | false => rfl
  | true =>
    simp only [Bool.not_true, Bool.false_eq_true, if_false]
    unfold check_geometry
    by_cases hsr : d.spatialRefName = "Unknown"
    · rw [if_pos hsr]
      rfl
    · rw [if_neg hsr]
      have hmp : d.shapeType ≠ "MultiPatch" := by
        intro hc
        exact h (by rw [hc]; decide)
      simp [h, hmp, truthyOptBool]

/-- Witness for C5 (amended) at a concrete Point-geometry input. -/
theorem boundariesMain_nonpolygon_exits_witness :
    boundariesMain true [] (some []) ⟨"WGS 1984", "Point", 0, "Geographic", 6326, 7030⟩
      = .error (.exit 1) :=
  boundariesMain_nonpolygon_exits true [] (some [])
    ⟨"WGS 1984", "Point", 0, "Geographic", 6326, 7030⟩ (by decide)

/-- C3 (code-bug evidence): on a union result with both a gap row and a
duplicated uid, the overlap size scan reaches `int(row[1])` on the gap row -
its guard tests OBJECTID, which is never null, contradicting the adjacent
comment `# gaps have no id` - and the analysis aborts with a TypeError
instead of completing. -/
theorem overlap_gap_analysis_mixed_raises :
    overlap_gap_analysis 1
      [⟨1, none, 4, none, none⟩, ⟨2, some 1, 3, none, none⟩, ⟨3, some 1, 2, none, none⟩]
      = .error (.exc "TypeError: int() argument is None") := by
  rfl

/-- C1 counterexample: on a union result holding both gaps (null uids) and an
overlap (uid 1 twice) the analysis raises before the gap pass runs, so no gap
count is returned and no record gets its `gaps` field set although the number
of null-uid records is positive. -/
theorem overlap_gap_analysis_mixed_gap_unflagged :
    overlap_gap_analysis 2
      [⟨1, none, 1, none, none⟩, ⟨2, some 1, 5, none, none⟩,
       ⟨3, some 1, 2, none, none⟩, ⟨4, some 2, 7, none, none⟩]
      = .error (.exc "TypeError: int() argument is None") ∧
    0 < countNulls
      [⟨1, none, 1, none, none⟩, ⟨2, some 1, 5, none, none⟩,
       ⟨3, some 1, 2, none, none⟩, ⟨4, some 2, 7, none, none⟩] := by
  exact ⟨rfl, by decide⟩

/-- C2 counterexample: a feature class with a duplicated unique ID but also a
gap row never gets its overlap flags written - the scan raises on the gap
row's null uid first. -/
theorem overlap_gap_analysis_dupe_with_gap_raises :
    overlap_gap_analysis 1
      [⟨1, some 1, 6, none, none⟩, ⟨2, some 1, 1, none, none⟩, ⟨3, none, 2, none, none⟩]
      = .error (.exc "TypeError: int() argument is None") ∧
    2 ≤ uidCount
      [⟨1, some 1, 6, none, none⟩, ⟨2, some 1, 1, none, none⟩, ⟨3, none, 2, none, none⟩] 1 := by
  exact ⟨rfl, by decide⟩

/-- C6: when neither flag field exists the eliminate script exits with code 1;
otherwise `Eliminate` is invoked on exactly the records whose existing
gap/overlap flag equals 1 and whose `AREA_SQKM` is strictly below the
threshold (the three where clauses coincide with that predicate given which
fields exist). -/
theorem eliminate_main_spec (flds : List String) (maxArea : ℚ) (recs : List URec) :
    (("gaps" ∉ flds ∧ "overlaps" ∉ flds) →
      eliminate_main flds maxArea recs = .error (.exit 1)) ∧
    (("gaps" ∈ flds ∨ "overlaps" ∈ flds) →
      eliminate_main flds maxArea recs = .ok (recs.filter (elimSpecSelect flds maxArea))) := by
  constructor
  · rintro ⟨hg, ho⟩
    unfold eliminate_main check_fc
    simp [hg, ho]
  · intro hgo
    have hfc : check_fc flds = .ok (decide ("gaps" ∈ flds), decide ("overlaps" ∈ flds)) := by
      unfold check_fc
      rcases hgo with h | h <;> simp [h]
    unfold eliminate_main
    rw [hfc]
    by_cases hg : "gaps" ∈ flds
    · by_cases ho : "overlaps" ∈ flds
      · rw [decide_eq_true hg, decide_eq_true ho]
        simp only [Bool.and_self, eq_self_iff_true, if_true]
        congr 1
        apply List.filter_congr
        intro r _
        unfold elimSpecSelect
        rw [decide_eq_true hg, decide_eq_true ho]
        simp
      · rw [decide_eq_true hg, decide_eq_false ho]
        simp only [Bool.and_false, Bool.false_eq_true, if_false, eq_self_iff_true, if_true]
        congr 1
        apply List.filter_congr
        intro r _
        unfold elimSpecSelect
        rw [decide_eq_true hg, decide_eq_false ho]
        simp
    · have ho : "overlaps" ∈ flds := hgo.resolve_left hg
      rw [decide_eq_false hg, decide_eq_true ho]
      simp only [Bool.false_and, Bool.false_eq_true, if_false, eq_self_iff_true, if_true]
      congr 1
      apply List.filter_congr
      intro r _
      unfold elimSpecSelect
      rw [decide_eq_false hg, decide_eq_true ho]
      simp

/-- Witness for C6 at a concrete input: with only a `gaps` field present, the
selection keeps exactly the flagged record below the threshold. -/
theorem eliminate_main_spec_witness :
    eliminate_main ["gaps"] 5
      [⟨1, some 1, 3, none, some 1⟩, ⟨2, some 2, 9, none, some 1⟩, ⟨3, none, 1, none, some 0⟩]
      = .ok [⟨1, some 1, 3, none, some 1⟩] := by
  have h := (eliminate_main_spec ["gaps"] 5
    [⟨1, some 1, 3, none, some 1⟩, ⟨2, some 2, 9, none, some 1⟩,
     ⟨3, none, 1, none, some 0⟩]).2 (Or.inl (by decide))
  rw [h]
  rfl

/-- C8 (code-bug evidence): with `abc_ingest` existing, the `original_loaded`
layer is rebound to the input dataset `abc_adm` - line 54 passes
`replace_dict`, not the freshly built `update_dict` - instead of to the
`abc_ingest` feature class named by the spec. -/
theorem setup_project_original_loaded_misbound :
    setup_project "C:\\work\\abc.gdb\\abc_adm"
      [⟨"original_loaded", "old_ds", "old_db"⟩, ⟨"gaps", "g", "h"⟩] true
      = .ok [⟨"original_loaded", "abc_adm", "C:\\work\\abc.gdb"⟩,
             ⟨"gaps", "abc_adm", "C:\\work\\abc.gdb"⟩] ∧
    ("abc_adm" : String) ≠ "abc" ++ "_ingest" := by
  exact ⟨rfl, by decide⟩

theorem mem_collectUids_of {v : Int} :
    ∀ {rs : List URec}, ∀ r ∈ rs, r.uid = some v → v ≠ 0 → v ∈ collectUids rs := by
  intro rs
  induction rs with
  | nil => intro r hr; exact absurd hr (List.not_mem_nil r)
  | cons s t ih =>
    intro r hr hu hv
    rcases List.mem_cons.mp hr with rfl | hr2
    · unfold collectUids
      rw [hu]
      show v ∈ if (v != 0) = true then v :: collectUids t else collectUids t
      rw [if_pos (by simpa using hv)]
      exact List.mem_cons_self v _
    · have hmem := ih r hr2 hu hv
      unfold collectUids
      cases hs : s.uid with
      | none => exact hmem
      | some w =>
        show v ∈ if (w != 0) = true then w :: collectUids t else collectUids t
        by_cases hw : (w != 0) = true
        · rw [if_pos hw]; exact List.mem_cons_of_mem w hmem
        · rw [if_neg hw]; exact hmem

theorem exists_of_mem_collectUids {v : Int} :
    ∀ {rs : List URec}, v ∈ collectUids rs → ∃ r ∈ rs, r.uid = some v := by
  intro rs
  induction rs with
  | nil => intro h; exact absurd h (List.not_mem_nil v)
  | cons s t ih =>
    intro h
    unfold collectUids at h
    cases hs : s.uid with
    | none =>
      rw [hs] at h
      obtain ⟨r, hr, hu⟩ := ih h
      exact ⟨r, List.mem_cons_of_mem s hr, hu⟩
    | some w =>
      rw [hs] at h
      have h2 : v ∈ if (w != 0) = true then w :: collectUids t else collectUids t := h
      by_cases hw : (w != 0) = true
      · rw [if_pos hw] at h2
        rcases List.mem_cons.mp h2 with rfl | h3
        · exact ⟨s, List.mem_cons_self s t, hs⟩
        · obtain ⟨r, hr, hu⟩ := ih h3
          exact ⟨r, List.mem_cons_of_mem s hr, hu⟩
      · rw [if_neg hw] at h2
        obtain ⟨r, hr, hu⟩ := ih h2
        exact ⟨r, List.mem_cons_of_mem s hr, hu⟩

theorem countGaps_add_collectUids_length :
    ∀ rs : List URec, countGaps rs + (collectUids rs).length = rs.length := by
  intro rs
  induction rs with
  | nil => rfl
  | cons r t ih =>
    cases hu : r.uid with
    | none =>
      have h1 : countGaps (r :: t) = countGaps t + 1 := by
        unfold countGaps
        rw [List.countP_cons, hu]
        rfl
      have h2 : collectUids (r :: t) = collectUids t := by
        show (match r.uid with
          | some v => if (v != 0) = true then v :: collectUids t else collectUids t
          | none => collectUids t) = collectUids t
        rw [hu]
      rw [h1, h2, List.length_cons]
      omega
    | some w =>
      cases hw : (w != 0) with
      | true =>
        have h1 : countGaps (r :: t) = countGaps t := by
          unfold countGaps
          rw [List.countP_cons, hu]
          show List.countP _ t + (if (!(w != 0)) = true then 1 else 0) = List.countP _ t
          rw [hw]
          rfl
        have h2 : collectUids (r :: t) = w :: collectUids t := by
          show (match r.uid with
            | some v => if (v != 0) = true then v :: collectUids t else collectUids t
            | none => collectUids t) = w :: collectUids t
          rw [hu]
          show (if (w != 0) = true then w :: collectUids t else collectUids t) = _
          rw [hw, if_pos rfl]
        rw [h1, h2, List.length_cons, List.length_cons]
        omega
      | false =>
        have h1 : countGaps (r :: t) = countGaps t + 1 := by
          unfold countGaps
          rw [List.countP_cons, hu]
          show List.countP _ t + (if (!(w != 0)) = true then 1 else 0) = List.countP _ t + 1
          rw [hw]
          rfl
        have h2 : collectUids (r :: t) = collectUids t := by
          show (match r.uid with
            | some v => if (v != 0) = true then v :: collectUids t else collectUids t
            | none => collectUids t) = collectUids t
          rw [hu]
          show (if (w != 0) = true then w :: collectUids t else collectUids t) = _
          rw [hw, if_neg Bool.false_ne_true]
        rw [h1, h2, List.length_cons]
        omega

theorem countGaps_eq_countNulls :
    ∀ rs : List URec, (∀ r ∈ rs, r.uid ≠ some 0) → countGaps rs = countNulls rs := by
  intro rs
  induction rs with
  | nil => intro _; rfl
  | cons r t ih =>
    intro hz
    unfold countGaps countNulls
    rw [List.countP_cons, List.countP_cons]
    have ih2 := ih (fun s hs => hz s (List.mem_cons_of_mem r hs))
    unfold countGaps countNulls at ih2
    rw [ih2]
    congr 1
    cases hu : r.uid with
    | none => rfl
    | some w =>
      have hw : w ≠ 0 := fun hc => hz r (List.mem_cons_self r t) (by rw [hu, hc])
      simp [truthyInt, hw]

theorem Icc_mem_collectUids {n : Nat} {rs : List URec}
    (hInv : unionInvariant n rs) {j : ℤ} (h1 : 1 ≤ j) (h2 : j ≤ (n : ℤ)) :
    j ∈ collectUids rs := by
  have hj1 : (j.toNat - 1) ∈ List.range n := by
    rw [List.mem_range]
    omega
  obtain ⟨r, hr, hu⟩ := hInv.2 _ hj1
  have hjval : ((j.toNat - 1 : ℕ) : ℤ) + 1 = j := by omega
  refine mem_collectUids_of r hr ?_ (by omega)
  rw [hu]
  exact congrArg some hjval

theorem collectUids_range {n : Nat} {rs : List URec}
    (hInv : unionInvariant n rs) {v : Int} (hv : v ∈ collectUids rs) :
    1 ≤ v ∧ v ≤ (n : Int) := by
  obtain ⟨r, hr, hu⟩ := exists_of_mem_collectUids hv
  exact hInv.1 r hr v (by rw [hu]; simp)

theorem n_le_collectUids_length {n : Nat} {rs : List URec}
    (hInv : unionInvariant n rs) : n ≤ (collectUids rs).length := by
  have hsub : Finset.Icc (1 : ℤ) (n : ℤ) ⊆ (collectUids rs).toFinset := by
    intro j hj
    rw [Finset.mem_Icc] at hj
    rw [List.mem_toFinset]
    exact Icc_mem_collectUids hInv hj.1 hj.2
  have h2 : (Finset.Icc (1 : ℤ) (n : ℤ)).card = n := by
    rw [Int.card_Icc]
    omega
  calc n = (Finset.Icc (1 : ℤ) (n : ℤ)).card := h2.symm
    _ ≤ (collectUids rs).toFinset.card := Finset.card_le_card hsub
    _ ≤ (collectUids rs).length := List.toFinset_card_le _

theorem collectUids_length_le_n {n : Nat} {rs : List URec}
    (hInv : unionInvariant n rs)
    (hnd : ∀ v ∈ collectUids rs, uidCount rs v ≤ 1) :
    (collectUids rs).length ≤ n := by
  have hnodup : (collectUids rs).Nodup := by
    rw [List.nodup_iff_count_le_one]
    intro a
    by_cases ha : a ∈ collectUids rs
    · exact hnd a ha
    · rw [List.count_eq_zero_of_not_mem ha]
      omega
  have hsub : (collectUids rs).toFinset ⊆ Finset.Icc (1 : ℤ) (n : ℤ) := by
    intro v hv
    rw [List.mem_toFinset] at hv
    rw [Finset.mem_Icc]
    exact collectUids_range hInv hv
  calc (collectUids rs).length = (collectUids rs).toFinset.card :=
      (List.toFinset_card_of_nodup hnodup).symm
    _ ≤ (Finset.Icc (1 : ℤ) (n : ℤ)).card := Finset.card_le_card hsub
    _ = n := by rw [Int.card_Icc]; omega

theorem n_lt_collectUids_length {n : Nat} {rs : List URec}
    (hInv : unionInvariant n rs) {v0 : Int}
    (hd : 2 ≤ (collectUids rs).count v0) :
    n + 1 ≤ (collectUids rs).length := by
  have hv0mem : v0 ∈ collectUids rs := by
    rw [← List.count_pos_iff]
    omega
  have hsub : Finset.Icc (1 : ℤ) (n : ℤ) ⊆ ((collectUids rs).erase v0).toFinset := by
    intro j hj
    rw [Finset.mem_Icc] at hj
    have hjm : j ∈ collectUids rs := Icc_mem_collectUids hInv hj.1 hj.2
    rw [List.mem_toFinset]
    by_cases hjv : j = v0
    · subst hjv
      rw [← List.count_pos_iff, List.count_erase_self]
      omega
    · rw [← List.count_pos_iff, List.count_erase_of_ne hjv, List.count_pos_iff]
      exact hjm
  have h1 : n ≤ ((collectUids rs).erase v0).length := by
    calc n = (Finset.Icc (1 : ℤ) (n : ℤ)).card := by rw [Int.card_Icc]; omega
      _ ≤ ((collectUids rs).erase v0).toFinset.card := Finset.card_le_card hsub
      _ ≤ ((collectUids rs).erase v0).length := List.toFinset_card_le _
  have h2 : ((collectUids rs).erase v0).length = (collectUids rs).length - 1 :=
    List.length_erase_of_mem hv0mem
  have h3 : 0 < (collectUids rs).length := List.length_pos.mpr
    (fun hc => by rw [hc] at hv0mem; exact List.not_mem_nil v0 hv0mem)
  omega

theorem mem_dupeKeys {uids : List Int} {v : Int} :
    v ∈ dupeKeys uids ↔ v ∈ uids ∧ 2 ≤ uids.count v := by
  unfold dupeKeys
  rw [List.mem_dedup, List.mem_filter]
  simp

theorem zip_self_map {α β : Type} (l : List α) (f : α → β) :
    l.zip (l.map f) = l.map (fun a => (a, f a)) := by
  induction l with
  | nil => rfl
  | cons a t ih => simp [ih]

theorem overlapScan_ok (uids : List Int) :
    ∀ (rs : List URec) (acc : Int → ℚ × Int), (∀ r ∈ rs, r.uid ≠ none) →
      overlapScan uids acc rs = .ok (overlapScanP uids acc rs) := by
  intro rs
  induction rs with
  | nil => intro acc _; rfl
  | cons r t ih =>
    intro acc hnn
    have htail : ∀ s ∈ t, s.uid ≠ none := fun s hs => hnn s (List.mem_cons_of_mem r hs)
    cases hu : r.uid with
    | none => exact absurd hu (hnn r (List.mem_cons_self r t))
    | some id =>
      unfold overlapScan overlapScanP
      rw [hu]
      simp only [pyInt]
      by_cases ho : (r.oid != 0) = true
      · rw [if_pos ho, if_pos ho]
        exact ih _ htail
      · rw [if_neg ho, if_neg ho]
        exact ih _ htail

theorem flagOverlapsP_cons (uids main : List Int) (r : URec) (t : List URec) :
    flagOverlapsP uids main (r :: t) =
      (match r.uid with
       | none => r
       | some id =>
         if 2 ≤ uids.count id then
           (if r.oid ∈ main then { r with overlapsF := some 2 }
            else { r with overlapsF := some 1 })
         else { r with overlapsF := some 0 }) :: flagOverlapsP uids main t := by
  unfold flagOverlapsP
  rw [List.map_cons]

theorem flagOverlaps_ok (uids main : List Int) :
    ∀ rs : List URec, (∀ r ∈ rs, r.uid ≠ none) →
      flagOverlaps uids main rs = .ok (flagOverlapsP uids main rs) := by
  intro rs
  induction rs with
  | nil => intro _; rfl
  | cons r t ih =>
    intro hnn
    cases hu : r.uid with
    | none => exact absurd hu (hnn r (List.mem_cons_self r t))
    | some id =>
      rw [flagOverlapsP_cons]
      unfold flagOverlaps
      rw [hu]
      simp only [pyInt]
      rw [ih (fun s hs => hnn s (List.mem_cons_of_mem r hs))]

theorem flagOverlapsP_length (uids main : List Int) (rs : List URec) :
    (flagOverlapsP uids main rs).length = rs.length := by
  unfold flagOverlapsP
  exact List.length_map _ _

theorem flagGaps_length (rs : List URec) : (flagGaps rs).length = rs.length := by
  unfold flagGaps
  exact List.length_map _ _

theorem overlapScanP_cons (uids : List Int) (acc : Int → ℚ × Int) (r : URec) (t : List URec) :
    overlapScanP uids acc (r :: t) =
      overlapScanP uids
        (match r.uid with
        | none => acc
        | some id =>
          if r.oid != 0 then
            (if 2 ≤ uids.count id then
              (if r.area > (acc id).1 then
                (fun y => if y = id then (r.area, r.oid) else acc y)
              else acc)
            else acc)
          else acc) t := rfl

/-- If no row of `L` carrying uid `id` can beat the accumulated area, the scan
leaves the `id` cell unchanged. -/
theorem overlapScanP_stable (uids : List Int) (id : Int) :
    ∀ (L : List URec) (acc : Int → ℚ × Int),
      (∀ r ∈ L, r.uid = some id → r.area ≤ (acc id).1) →
      (overlapScanP uids acc L) id = acc id := by
  intro L
  induction L with
  | nil => intro acc _; rfl
  | cons r t ih =>
    intro acc hle
    have htail : ∀ s ∈ t, s.uid = some id → s.area ≤ (acc id).1 :=
      fun s hs h => hle s (List.mem_cons_of_mem r hs) h
    rw [overlapScanP_cons]
    cases hu : r.uid with
    | none => exact ih acc htail
    | some id2 =>
      show overlapScanP uids
        (if (r.oid != 0) = true then
          (if 2 ≤ uids.count id2 then
            (if r.area > (acc id2).1 then
              (fun y => if y = id2 then (r.area, r.oid) else acc y)
            else acc)
          else acc)
        else acc) t id = acc id
      by_cases ho : (r.oid != 0) = true
      · rw [if_pos ho]
        by_cases hc : 2 ≤ uids.count id2
        · rw [if_pos hc]
          by_cases hgt : r.area > (acc id2).1
          · rw [if_pos hgt]
            by_cases hid : id = id2
            · subst hid
              exact absurd hgt (not_lt.mpr (hle r (List.mem_cons_self r t) hu))
            · rw [ih (fun y => if y = id2 then (r.area, r.oid) else acc y)
                (fun s hs h => by simpa [hid] using htail s hs h)]
              simp [hid]
          · rw [if_neg hgt]; exact ih acc htail
        · rw [if_neg hc]; exact ih acc htail
      · rw [if_neg ho]; exact ih acc htail

/-- Fold characterization of the size scan: when `r0` is the strict-largest
fragment of the duplicated id `id` in `L` (OBJECTIDs pairwise distinct) and the
accumulated area is still below `r0.area`, the scan ends with `r0`'s area and
OBJECTID in the `id` cell. -/
theorem overlapScanP_max (uids : List Int) (id : Int) (r0 : URec)
    (hdup : 2 ≤ uids.count id) (hu0 : r0.uid = some id) (ho0 : (r0.oid != 0) = true) :
    ∀ (L : List URec) (acc : Int → ℚ × Int), r0 ∈ L →
      (L.map (fun r => r.oid)).Nodup →
      (∀ r ∈ L, r.uid = some id → r.oid ≠ r0.oid → r.area < r0.area) →
      (acc id).1 < r0.area →
      (overlapScanP uids acc L) id = (r0.area, r0.oid) := by
  intro L
  induction L with
  | nil => intro acc h; exact absurd h (List.not_mem_nil r0)
  | cons c t ih =>
    intro acc hmem hnd hmax hacc
    have hndc : (c.oid ∉ t.map (fun r => r.oid)) ∧ (t.map (fun r => r.oid)).Nodup := by
      rw [List.map_cons] at hnd
      exact List.nodup_cons.mp hnd
    have hmaxt : ∀ r ∈ t, r.uid = some id → r.oid ≠ r0.oid → r.area < r0.area :=
      fun r hr h1 h2 => hmax r (List.mem_cons_of_mem c hr) h1 h2
    rcases List.mem_cons.mp hmem with rfl | hmem2
    · rw [overlapScanP_cons, hu0]
      show overlapScanP uids
        (if (r0.oid != 0) = true then
          (if 2 ≤ uids.count id then
            (if r0.area > (acc id).1 then
              (fun y => if y = id then (r0.area, r0.oid) else acc y)
            else acc)
          else acc)
        else acc) t id = (r0.area, r0.oid)
      rw [if_pos ho0, if_pos hdup, if_pos hacc]
      rw [overlapScanP_stable uids id t _ (fun s hs hsid => by
        have hsoid : s.oid ≠ r0.oid := by
          intro hc
          exact hndc.1 (hc ▸ List.mem_map_of_mem (fun r => r.oid) hs)
        simpa using le_of_lt (hmaxt s hs hsid hsoid))]
      simp
    · rw [overlapScanP_cons]
      cases hu : c.uid with
      | none => exact ih acc hmem2 hndc.2 hmaxt hacc
      | some id2 =>
        show overlapScanP uids
          (if (c.oid != 0) = true then
            (if 2 ≤ uids.count id2 then
              (if c.area > (acc id2).1 then
                (fun y => if y = id2 then (c.area, c.oid) else acc y)
              else acc)
            else acc)
          else acc) t id = (r0.area, r0.oid)
        by_cases ho : (c.oid != 0) = true
        · rw [if_pos ho]
          by_cases hc2 : 2 ≤ uids.count id2
          · rw [if_pos hc2]
            by_cases hgt : c.area > (acc id2).1
            · rw [if_pos hgt]
              refine ih _ hmem2 hndc.2 hmaxt ?_
              by_cases hid : id = id2
              · subst hid
                have hcoid : c.oid ≠ r0.oid := by
                  intro hcc
                  exact hndc.1 (hcc ▸ List.mem_map_of_mem (fun r => r.oid) hmem2)
                have hlt : c.area < r0.area := hmax c (List.mem_cons_self c t) hu hcoid
                simpa using hlt
              · simpa [hid] using hacc
            · rw [if_neg hgt]; exact ih acc hmem2 hndc.2 hmaxt hacc
          · rw [if_neg hc2]; exact ih acc hmem2 hndc.2 hmaxt hacc
        · rw [if_neg ho]; exact ih acc hmem2 hndc.2 hmaxt hacc

theorem overlapPass_of_nonpos (n : Nat) (rs : List URec)
    (hov : ¬ 0 < ((collectUids rs).length : Int) - (n : Int)) :
    overlapPass n rs = .ok rs := by
  unfold overlapPass
  rw [if_neg hov]

theorem overlapPass_of_pos (n : Nat) (rs : List URec)
    (hov : 0 < ((collectUids rs).length : Int) - (n : Int))
    (hnonull : ∀ r ∈ rs, r.uid ≠ none) :
    overlapPass n rs = .ok (flagOverlapsP (collectUids rs)
      (mainPolys (collectUids rs) (overlapScanP (collectUids rs) (fun _ => (0, 0)) rs)) rs) := by
  unfold overlapPass
  rw [if_pos hov, overlapScan_ok (collectUids rs) rs (fun _ => (0, 0)) hnonull]
  exact flagOverlaps_ok (collectUids rs)
    (mainPolys (collectUids rs) (overlapScanP (collectUids rs) (fun _ => (0, 0)) rs)) rs hnonull

theorem overlap_gap_analysis_of_pass (n : Nat) (rs : List URec) (hgt : ¬ rs.length ≤ n)
    (rs1 : List URec) (hpass : overlapPass n rs = .ok rs1) :
    overlap_gap_analysis n rs =
      .ok (if 0 < countGaps rs then flagGaps rs1 else rs1, countGaps rs,
        ((collectUids rs).length : Int) - (n : Int)) := by
  unfold overlap_gap_analysis
  rw [if_neg hgt, hpass]

theorem no_null_of_countNulls_zero {rs : List URec} (h : countNulls rs = 0) :
    ∀ r ∈ rs, r.uid ≠ none := by
  intro r hr hc
  have h2 := List.countP_eq_zero.mp h r hr
  rw [hc] at h2
  exact h2 rfl

theorem no_some_zero_of_invariant {n : Nat} {rs : List URec} (hInv : unionInvariant n rs) :
    ∀ r ∈ rs, r.uid ≠ some 0 := by
  intro r hr hc
  have h2 := hInv.1 r hr 0 (by rw [hc]; simp)
  omega

/-- C1 (amended): under the Union postcondition, on a feature class that does
not hold both duplicated uids and null uids, the analysis completes, the
returned gap count equals the number of null-uid records, and when positive
the `gaps` field is set to 1 exactly on the null-uid records and to 0 on the
records with a non-null uid. -/
theorem overlap_gap_analysis_gap_spec (n : Nat) (rs : List URec)
    (hInv : unionInvariant n rs)
    (hSide : (∀ v ∈ collectUids rs, uidCount rs v ≤ 1) ∨ countNulls rs = 0) :
    ∃ rs' o, overlap_gap_analysis n rs = .ok (rs', countNulls rs, o) ∧
      rs'.length = rs.length ∧
      (0 < countNulls rs →
        ∀ p ∈ rs.zip rs',
          (p.2.gapsF = some 1 ↔ p.1.uid = none) ∧
          (p.1.uid ≠ none → p.2.gapsF = some 0)) := by
  have hz : ∀ r ∈ rs, r.uid ≠ some 0 := no_some_zero_of_invariant hInv
  have hCG : countGaps rs = countNulls rs := countGaps_eq_countNulls rs hz
  have hlen := countGaps_add_collectUids_length rs
  have hn : n ≤ (collectUids rs).length := n_le_collectUids_length hInv
  by_cases hle : rs.length ≤ n
  · have h0 : countNulls rs = 0 := by rw [← hCG]; omega
    refine ⟨rs, 0, ?_, rfl, ?_⟩
    · unfold overlap_gap_analysis
      rw [if_pos hle, h0]
    · intro hpos
      rw [h0] at hpos
      exact absurd hpos (by omega)
  · rcases hSide with hnd | hnn
    · -- no duplicated ids: the overlap block is skipped
      have hle2 : (collectUids rs).length ≤ n := collectUids_length_le_n hInv hnd
      have hov : ¬ 0 < ((collectUids rs).length : Int) - (n : Int) := by omega
      have hval := overlap_gap_analysis_of_pass n rs hle rs (overlapPass_of_nonpos n rs hov)
      by_cases h0 : 0 < countGaps rs
      · rw [if_pos h0] at hval
        refine ⟨flagGaps rs, ((collectUids rs).length : Int) - (n : Int), ?_, flagGaps_length rs, ?_⟩
        · rw [hval, hCG]
        · intro _ p hp
          unfold flagGaps at hp
          rw [zip_self_map] at hp
          obtain ⟨a, ha, hpa⟩ := List.mem_map.mp hp
          subst hpa
          cases hu : a.uid with
          | none =>
            constructor
            · simp [hu, truthyInt]
            · intro hcon
              exact absurd rfl hcon
          | some w =>
            have hw : w ≠ 0 := fun hc => hz a ha (by rw [hu, hc])
            constructor
            · simp [hu, truthyInt, hw]
            · intro _
              simp [hu, truthyInt, hw]
      · rw [if_neg h0] at hval
        have h0' : countNulls rs = 0 := by rw [← hCG]; omega
        refine ⟨rs, ((collectUids rs).length : Int) - (n : Int), ?_, rfl, ?_⟩
        · rw [hval, hCG]
        · intro hpos
          rw [h0'] at hpos
          exact absurd hpos (by omega)
    · -- no nulls: the gap block is skipped and nothing can raise
      have hnonull := no_null_of_countNulls_zero hnn
      have hgaps0 : countGaps rs = 0 := by rw [hCG]; exact hnn
      have h0 : ¬ 0 < countGaps rs := by omega
      by_cases hov : 0 < ((collectUids rs).length : Int) - (n : Int)
      · have hval := overlap_gap_analysis_of_pass n rs hle _ (overlapPass_of_pos n rs hov hnonull)
        rw [if_neg h0] at hval
        refine ⟨flagOverlapsP (collectUids rs)
            (mainPolys (collectUids rs) (overlapScanP (collectUids rs) (fun _ => (0, 0)) rs)) rs,
          ((collectUids rs).length : Int) - (n : Int), ?_, ?_, ?_⟩
        · rw [hval, hCG]
        · exact flagOverlapsP_length _ _ rs
        · intro hpos
          rw [hnn] at hpos
          exact absurd hpos (by omega)
      · have hval := overlap_gap_analysis_of_pass n rs hle rs (overlapPass_of_nonpos n rs hov)
        rw [if_neg h0] at hval
        refine ⟨rs, ((collectUids rs).length : Int) - (n : Int), ?_, rfl, ?_⟩
        · rw [hval, hCG]
        · intro hpos
          rw [hnn] at hpos
          exact absurd hpos (by omega)

/-- Witness for C1 (amended) at a concrete input: one regular feature and one
gap row. -/
theorem overlap_gap_analysis_gap_spec_witness :
    ∃ rs' o, overlap_gap_analysis 1 [⟨1, some 1, 5, none, none⟩, ⟨2, none, 3, none, none⟩]
        = .ok (rs', countNulls [⟨1, some 1, 5, none, none⟩, ⟨2, none, 3, none, none⟩], o) ∧
      rs'.length = [⟨1, some 1, 5, none, none⟩, (⟨2, none, 3, none, none⟩ : URec)].length ∧
      (0 < countNulls [⟨1, some 1, 5, none, none⟩, ⟨2, none, 3, none, none⟩] →
        ∀ p ∈ [⟨1, some 1, 5, none, none⟩, (⟨2, none, 3, none, none⟩ : URec)].zip rs',
          (p.2.gapsF = some 1 ↔ p.1.uid = none) ∧
          (p.1.uid ≠ none → p.2.gapsF = some 0)) :=
  overlap_gap_analysis_gap_spec 1 [⟨1, some 1, 5, none, none⟩, ⟨2, none, 3, none, none⟩]
    (by constructor
        · decide
        · decide)
    (Or.inl (by decide))

theorem oid_inj {rs : List URec} (hnd : (rs.map (fun r => r.oid)).Nodup)
    {a b : URec} (ha : a ∈ rs) (hb : b ∈ rs) (h : a.oid = b.oid) : a = b :=
  List.inj_on_of_nodup_map hnd ha hb h

theorem isLargest_unique {rs : List URec} (hnd : (rs.map (fun r => r.oid)).Nodup)
    {a b : URec} (ha : a ∈ rs) (hb : b ∈ rs) (hu : a.uid = b.uid)
    (hA : isLargestOfUid rs a) (hB : isLargestOfUid rs b) : a = b := by
  by_cases h : a.oid = b.oid
  · exact oid_inj hnd ha hb h
  · have h1 := hA b hb hu.symm (fun hc => h hc.symm)
    have h2 := hB a ha hu (fun hc => h hc)
    exact absurd h1 (not_lt.mpr (le_of_lt h2))

/-- The size scan ends with the strict-largest fragment's area and OBJECTID in
the cell of its duplicated id. -/
theorem sizes_at_dupe {rs : List URec}
    (hOidPos : ∀ r ∈ rs, 1 ≤ r.oid)
    (hOidNodup : (rs.map (fun r => r.oid)).Nodup)
    {v : Int} (hdup : 2 ≤ (collectUids rs).count v)
    {r0 : URec} (hr0 : r0 ∈ rs) (hu0 : r0.uid = some v) (hpos : 0 < r0.area)
    (hL : isLargestOfUid rs r0) :
    (overlapScanP (collectUids rs) (fun _ => (0, 0)) rs) v = (r0.area, r0.oid) := by
  refine overlapScanP_max (collectUids rs) v r0 hdup hu0 ?_ rs (fun _ => (0, 0))
    hr0 hOidNodup ?_ ?_
  · have h1 := hOidPos r0 hr0
    simp only [bne_iff_ne, ne_eq]
    omega
  · intro r hr h1 h2
    exact hL r hr (by rw [hu0]; exact h1) h2
  · simpa using hpos

theorem mem_mainPolys_iff {rs : List URec}
    (hOidPos : ∀ r ∈ rs, 1 ≤ r.oid)
    (hOidNodup : (rs.map (fun r => r.oid)).Nodup)
    (hMax : ∀ v ∈ collectUids rs, 2 ≤ uidCount rs v →
      ∃ r0 ∈ rs, r0.uid = some v ∧ 0 < r0.area ∧ isLargestOfUid rs r0)
    {r : URec} (hr : r ∈ rs) {v : Int} (hu : r.uid = some v)
    (hdup : 2 ≤ uidCount rs v) :
    (r.oid ∈ mainPolys (collectUids rs)
        (overlapScanP (collectUids rs) (fun _ => (0, 0)) rs)
      ↔ isLargestOfUid rs r) := by
  have hdup' : 2 ≤ (collectUids rs).count v := hdup
  have hvmem : v ∈ collectUids rs := List.count_pos_iff.mp (by omega)
  obtain ⟨r0, hr0, hu0, hp0, hL0⟩ := hMax v hvmem hdup
  have hsz : (overlapScanP (collectUids rs) (fun _ => (0, 0)) rs) v = (r0.area, r0.oid) :=
    sizes_at_dupe hOidPos hOidNodup hdup' hr0 hu0 hp0 hL0
  constructor
  · intro hmem
    unfold mainPolys at hmem
    obtain ⟨id, hid, hoid⟩ := List.mem_map.mp hmem
    rw [mem_dupeKeys] at hid
    obtain ⟨r1, hr1, hu1, hp1, hL1⟩ := hMax id hid.1 hid.2
    have hsz1 : (overlapScanP (collectUids rs) (fun _ => (0, 0)) rs) id = (r1.area, r1.oid) :=
      sizes_at_dupe hOidPos hOidNodup hid.2 hr1 hu1 hp1 hL1
    rw [hsz1] at hoid
    have heq : r1 = r := oid_inj hOidNodup hr1 hr hoid
    rw [← heq]
    exact hL1
  · intro hLr
    have hrr0 : r = r0 := isLargest_unique hOidNodup hr hr0 (by rw [hu, hu0]) hLr hL0
    unfold mainPolys
    apply List.mem_map.mpr
    refine ⟨v, ?_, ?_⟩
    · rw [mem_dupeKeys]
      exact ⟨hvmem, hdup'⟩
    · rw [hsz, hrr0]

/-- C2 (amended): on a unioned class with a duplicated uid and no nulls,
under the presuppositions of the claim (distinct positive OBJECTIDs and a
unique strictly-largest positive-area fragment per duplicated id), the
analysis flags exactly the largest fragment of each duplicated id with 2,
every other fragment of a duplicated id with 1, and every fragment of a
once-occurring id with 0. -/
theorem overlap_gap_analysis_overlap_spec (n : Nat) (rs : List URec)
    (hInv : unionInvariant n rs)
    (hNoNull : countNulls rs = 0)
    (hOidPos : ∀ r ∈ rs, 1 ≤ r.oid)
    (hOidNodup : (rs.map (fun r => r.oid)).Nodup)
    (hMax : ∀ v ∈ collectUids rs, 2 ≤ uidCount rs v →
      ∃ r0 ∈ rs, r0.uid = some v ∧ 0 < r0.area ∧ isLargestOfUid rs r0)
    (hDupe : ∃ v ∈ collectUids rs, 2 ≤ uidCount rs v) :
    ∃ rs' o, overlap_gap_analysis n rs = .ok (rs', 0, o) ∧ 0 < o ∧
      rs'.length = rs.length ∧
      ∀ p ∈ rs.zip rs',
        p.2.oid = p.1.oid ∧ p.2.uid = p.1.uid ∧
        ∀ v, p.1.uid = some v →
          ((2 ≤ uidCount rs v ∧ isLargestOfUid rs p.1) → p.2.overlapsF = some 2) ∧
          ((2 ≤ uidCount rs v ∧ ¬ isLargestOfUid rs p.1) → p.2.overlapsF = some 1) ∧
          (uidCount rs v ≤ 1 → p.2.overlapsF = some 0) := by
  have hz := no_some_zero_of_invariant hInv
  have hnonull := no_null_of_countNulls_zero hNoNull
  have hCG := countGaps_eq_countNulls rs hz
  have hgaps0 : countGaps rs = 0 := by rw [hCG]; exact hNoNull
  have hlen := countGaps_add_collectUids_length rs
  obtain ⟨v0, hv0m, hv0c⟩ := hDupe
  have hv0c2 : 2 ≤ (collectUids rs).count v0 := hv0c
  have hlong : n + 1 ≤ (collectUids rs).length := n_lt_collectUids_length hInv hv0c2
  have hgt : ¬ rs.length ≤ n := by omega
  have hov : 0 < ((collectUids rs).length : Int) - (n : Int) := by omega
  have hval := overlap_gap_analysis_of_pass n rs hgt _ (overlapPass_of_pos n rs hov hnonull)
  rw [if_neg (by omega : ¬ 0 < countGaps rs), hgaps0] at hval
  refine ⟨flagOverlapsP (collectUids rs)
      (mainPolys (collectUids rs) (overlapScanP (collectUids rs) (fun _ => (0, 0)) rs)) rs,
    ((collectUids rs).length : Int) - (n : Int), hval, by omega,
    flagOverlapsP_length _ _ rs, ?_⟩
  intro p hp
  unfold flagOverlapsP at hp
  rw [zip_self_map] at hp
  obtain ⟨a, ha, hpa⟩ := List.mem_map.mp hp
  subst hpa
  cases hu : a.uid with
  | none => exact absurd hu (hnonull a ha)
  | some v =>
    simp only [hu]
    refine ⟨?_, ?_, ?_⟩
    · show (if 2 ≤ (collectUids rs).count v then
          (if a.oid ∈ mainPolys (collectUids rs)
              (overlapScanP (collectUids rs) (fun _ => (0, 0)) rs) then
            ({ oid := a.oid, uid := some v, area := a.area, overlapsF := some 2, gapsF := a.gapsF } : URec)
          else ({ oid := a.oid, uid := some v, area := a.area, overlapsF := some 1, gapsF := a.gapsF } : URec))
        else ({ oid := a.oid, uid := some v, area := a.area, overlapsF := some 0, gapsF := a.gapsF } : URec)).oid = a.oid
      split
      · split <;> rfl
      · rfl
    · show (if 2 ≤ (collectUids rs).count v then
          (if a.oid ∈ mainPolys (collectUids rs)
              (overlapScanP (collectUids rs) (fun _ => (0, 0)) rs) then
            ({ oid := a.oid, uid := some v, area := a.area, overlapsF := some 2, gapsF := a.gapsF } : URec)
          else ({ oid := a.oid, uid := some v, area := a.area, overlapsF := some 1, gapsF := a.gapsF } : URec))
        else ({ oid := a.oid, uid := some v, area := a.area, overlapsF := some 0, gapsF := a.gapsF } : URec)).uid = some v
      split
      · split <;> rfl
      · rfl
    · intro w hw
      obtain rfl : v = w := Option.some.inj hw
      refine ⟨?_, ?_, ?_⟩
      · rintro ⟨hd, hLg⟩
        have hd2 : 2 ≤ (collectUids rs).count v := hd
        have hmm := (mem_mainPolys_iff hOidPos hOidNodup hMax ha hu hd).mpr hLg
        show (if 2 ≤ (collectUids rs).count v then
            (if a.oid ∈ mainPolys (collectUids rs)
                (overlapScanP (collectUids rs) (fun _ => (0, 0)) rs) then
              ({ oid := a.oid, uid := some v, area := a.area, overlapsF := some 2, gapsF := a.gapsF } : URec)
            else ({ oid := a.oid, uid := some v, area := a.area, overlapsF := some 1, gapsF := a.gapsF } : URec))
          else ({ oid := a.oid, uid := some v, area := a.area, overlapsF := some 0, gapsF := a.gapsF } : URec)).overlapsF = some 2
        rw [if_pos hd2, if_pos hmm]
      · rintro ⟨hd, hLg⟩
        have hd2 : 2 ≤ (collectUids rs).count v := hd
        have hmm := fun hc =>
          hLg ((mem_mainPolys_iff hOidPos hOidNodup hMax ha hu hd).mp hc)
        show (if 2 ≤ (collectUids rs).count v then
            (if a.oid ∈ mainPolys (collectUids rs)
                (overlapScanP (collectUids rs) (fun _ => (0, 0)) rs) then
              ({ oid := a.oid, uid := some v, area := a.area, overlapsF := some 2, gapsF := a.gapsF } : URec)
            else ({ oid := a.oid, uid := some v, area := a.area, overlapsF := some 1, gapsF := a.gapsF } : URec))
          else ({ oid := a.oid, uid := some v, area := a.area, overlapsF := some 0, gapsF := a.gapsF } : URec)).overlapsF = some 1
        rw [if_pos hd2, if_neg hmm]
      · intro hle1
        have hd2 : ¬ 2 ≤ (collectUids rs).count v := by
          have h2 : (collectUids rs).count v ≤ 1 := hle1
          omega
        show (if 2 ≤ (collectUids rs).count v then
            (if a.oid ∈ mainPolys (collectUids rs)
                (overlapScanP (collectUids rs) (fun _ => (0, 0)) rs) then
              ({ oid := a.oid, uid := some v, area := a.area, overlapsF := some 2, gapsF := a.gapsF } : URec)
            else ({ oid := a.oid, uid := some v, area := a.area, overlapsF := some 1, gapsF := a.gapsF } : URec))
          else ({ oid := a.oid, uid := some v, area := a.area, overlapsF := some 0, gapsF := a.gapsF } : URec)).overlapsF = some 0
        rw [if_neg hd2]

/-- Witness for C2 (amended) at a concrete input: uid 1 split into two
fragments (areas 10 and 4), uid 2 kept whole. -/
theorem overlap_gap_analysis_overlap_spec_witness :
    ∃ rs' o, overlap_gap_analysis 2
        [⟨1, some 1, 10, none, none⟩, ⟨2, some 1, 4, none, none⟩, ⟨3, some 2, 7, none, none⟩]
        = .ok (rs', 0, o) ∧ 0 < o ∧
      rs'.length = [⟨1, some 1, 10, none, none⟩, ⟨2, some 1, 4, none, none⟩,
        (⟨3, some 2, 7, none, none⟩ : URec)].length ∧
      ∀ p ∈ [⟨1, some 1, 10, none, none⟩, ⟨2, some 1, 4, none, none⟩,
          (⟨3, some 2, 7, none, none⟩ : URec)].zip rs',
        p.2.oid = p.1.oid ∧ p.2.uid = p.1.uid ∧
        ∀ v, p.1.uid = some v →
          ((2 ≤ uidCount [⟨1, some 1, 10, none, none⟩, ⟨2, some 1, 4, none, none⟩,
              ⟨3, some 2, 7, none, none⟩] v ∧
            isLargestOfUid [⟨1, some 1, 10, none, none⟩, ⟨2, some 1, 4, none, none⟩,
              ⟨3, some 2, 7, none, none⟩] p.1) → p.2.overlapsF = some 2) ∧
          ((2 ≤ uidCount [⟨1, some 1, 10, none, none⟩, ⟨2, some 1, 4, none, none⟩,
              ⟨3, some 2, 7, none, none⟩] v ∧
            ¬ isLargestOfUid [⟨1, some 1, 10, none, none⟩, ⟨2, some 1, 4, none, none⟩,
              ⟨3, some 2, 7, none, none⟩] p.1) → p.2.overlapsF = some 1) ∧
          (uidCount [⟨1, some 1, 10, none, none⟩, ⟨2, some 1, 4, none, none⟩,
            ⟨3, some 2, 7, none, none⟩] v ≤ 1 → p.2.overlapsF = some 0) :=
  overlap_gap_analysis_overlap_spec 2
    [⟨1, some 1, 10, none, none⟩, ⟨2, some 1, 4, none, none⟩, ⟨3, some 2, 7, none, none⟩]
    (by constructor
        · decide
        · decide)
    (by decide) (by decide) (by decide)
    (by decide) (by decide)

end GPWv5
